import Mathlib

/-
Verification of the proto signal/slot library (namespace proto, header
revision with detail::signal_proxy; a second, older header revision with
per-slot detail::socket objects is embedded further below for the
member-connect overload that returns the connection).

Shallow embedding conventions:
  * std::map<uint64_t, slot_type> is a key-sorted association list
    `List (Nat × σ)`; `mapEmplace` is map::emplace (insert-if-absent,
    keeping keys sorted), `mapErase` is map::erase(map::find(k)).
  * Heap objects reachable through pointers are kept in a `World`:
    live signal objects (`World.signals`, keyed by object identity) and
    live signal_proxy objects (`World.proxies`, mapping a proxy object id
    to the raw back pointer `m_signal`, i.e. the id of the signal it
    currently points at).  A proxy is alive exactly while it is present
    in `World.proxies` (the owning signal holds the only strong
    shared_ptr reference); a `weak_ptr` is `Option Nat` (`none` = empty
    weak_ptr, a dangling id = expired weak_ptr).
  * `assert(...)` is modelled by returning `Option`: `none` is the
    assertion-failure branch.
  * uint64_t arithmetic is `Nat` reduced mod 2^64.
-/

def U64MOD : Nat := 2 ^ 64

/-- Keys of an association list (the key set of a std::map). -/
def keysOf {σ : Type} (l : List (Nat × σ)) : List Nat :=
  l.map Prod.fst

/-- The std::map invariant: keys strictly ascending. -/
def SortedKeys {σ : Type} (l : List (Nat × σ)) : Prop :=
  l.Pairwise (fun a b => a.1 < b.1)

/-- Weaker map invariant: no duplicate keys. -/
def NodupKeys {σ : Type} (l : List (Nat × σ)) : Prop :=
  (keysOf l).Nodup

/-- map::find(k) followed by dereference: the mapped value, if present. -/
def lookupA {σ : Type} (k : Nat) : List (Nat × σ) → Option σ
  | [] => none
  | kv :: rest => if kv.1 = k then some kv.2 else lookupA k rest

/-- map::find(k) != map::end(). -/
def mapContains {σ : Type} (k : Nat) (l : List (Nat × σ)) : Bool :=
  (lookupA k l).isSome

/-- map::emplace(k, v): inserts only if the key is absent, keys kept sorted. -/
def mapEmplace {σ : Type} (k : Nat) (v : σ) : List (Nat × σ) → List (Nat × σ)
  | [] => [(k, v)]
  | kv :: rest =>
    if k < kv.1 then (k, v) :: kv :: rest
    else if kv.1 = k then kv :: rest
    else kv :: mapEmplace k v rest

/-- map::erase(map::find(k)): removes the (first) entry with key k. -/
def mapErase {σ : Type} (k : Nat) : List (Nat × σ) → List (Nat × σ)
  | [] => []
  | kv :: rest => if kv.1 = k then rest else kv :: mapErase k rest

/-- insert-or-replace on an association list (used for World updates). -/
def setA {σ : Type} (k : Nat) (v : σ) : List (Nat × σ) → List (Nat × σ)
  | [] => [(k, v)]
  | kv :: rest => if kv.1 = k then (k, v) :: rest else kv :: setA k v rest

/-- One live `proto::signal` object (header revision with signal_proxy):
    m_next_slot_id, m_slots, m_signal_proxy.  The shared_ptr member is the
    id of the owned proxy object (`none` after being moved from). -/
structure signal (σ : Type) where
  m_next_slot_id : Nat
  m_slots : List (Nat × σ)
  m_signal_proxy : Option Nat
deriving DecidableEq

/-- signal::connected(slot_id): m_slots.find(slot_id) != m_slots.end(). -/
def signal.connected {σ : Type} (s : signal σ) (slot_id : Nat) : Bool :=
  mapContains slot_id s.m_slots

/-- signal::size(). -/
def signal.size {σ : Type} (s : signal σ) : Nat :=
  s.m_slots.length

/-- signal::empty(). -/
def signal.empty {σ : Type} (s : signal σ) : Bool :=
  s.m_slots.isEmpty

/-- signal::clear(): m_next_slot_id = 0; m_slots.clear(). -/
def signal.clear {σ : Type} (s : signal σ) : signal σ :=
  { s with m_next_slot_id := 0, m_slots := [] }

/-- signal::disconnect(slot_id): asserts the id is present (None models the
    assertion firing), then erases that one entry. -/
def signal.disconnect? {σ : Type} (s : signal σ) (slot_id : Nat) :
    Option (signal σ) :=
  match lookupA slot_id s.m_slots with
  | some _ => some { s with m_slots := mapErase slot_id s.m_slots }
  | none => none

/-- A `proto::connection` value: m_slot_id and the weak_ptr to the proxy. -/
structure connection where
  m_slot_id : Nat
  m_signal_proxy : Option Nat
deriving DecidableEq

/-- The heap: live signal objects and live signal_proxy objects.  A proxy
    entry maps the proxy object id to its raw `m_signal` back pointer. -/
structure World (σ : Type) where
  signals : List (Nat × signal σ)
  proxies : List (Nat × Nat)
deriving DecidableEq

def World.signalAt {σ : Type} (w : World σ) (sid : Nat) : Option (signal σ) :=
  lookupA sid w.signals

def World.setSignal {σ : Type} (w : World σ) (sid : Nat) (s : signal σ) :
    World σ :=
  { w with signals := setA sid s w.signals }

/-- weak_ptr::lock on a proxy reference: the target signal id if the proxy
    object is still alive. -/
def World.proxyTarget {σ : Type} (w : World σ) (p : Nat) : Option Nat :=
  lookupA p w.proxies

/-- Number of slots of the signal object sid (0 if no such object). -/
def World.sizeAt {σ : Type} (w : World σ) (sid : Nat) : Nat :=
  match w.signalAt sid with
  | some s => s.size
  | none => 0

def World.slotsAt {σ : Type} (w : World σ) (sid : Nat) : List (Nat × σ) :=
  match w.signalAt sid with
  | some s => s.m_slots
  | none => []

/-- signal_proxy::connected(slot_id): m_signal && m_signal->connected(slot_id),
    for a proxy that the caller has already locked.  The raw pointer
    `m_signal` is never null in the source (set from `this` at construction
    and on rebind); dereferencing it is modelled by the signal lookup.  The
    outer `none` case (proxy object already destroyed) yields false so the
    definition can also serve callers that fold the lock into the query. -/
def World.proxyConnected {σ : Type} (w : World σ) (p : Nat) (slot_id : Nat) :
    Bool :=
  match w.proxyTarget p with
  | none => false
  | some sid =>
    match w.signalAt sid with
    | none => false
    | some s => s.connected slot_id

/-- signal_proxy::disconnect(slot_id): assert(connected(slot_id)); then
    m_signal->disconnect(slot_id).  None models an assertion firing. -/
def World.proxyDisconnect? {σ : Type} (w : World σ) (p : Nat) (slot_id : Nat) :
    Option (World σ) :=
  if w.proxyConnected p slot_id then
    match w.proxyTarget p with
    | none => none
    | some sid =>
      match w.signalAt sid with
      | none => none
      | some s =>
        match s.disconnect? slot_id with
        | some s2 => some (w.setSignal sid s2)
        | none => none
  else none

/-- connection::valid(): lock the weak_ptr; the proxy must be alive and
    report the slot still present. -/
def connection.valid {σ : Type} (c : connection) (w : World σ) : Bool :=
  match c.m_signal_proxy with
  | none => false
  | some p => w.proxyConnected p c.m_slot_id

/-- connection::close(): lock; if the proxy is reachable and the slot is
    still connected, disconnect it through the proxy; finally reset the
    weak_ptr.  None would mean an assertion fired inside the disconnect
    chain (shown unreachable below). -/
def connection.close? {σ : Type} (c : connection) (w : World σ) :
    Option (World σ × connection) :=
  let c2 : connection := { c with m_signal_proxy := none }
  match c.m_signal_proxy with
  | none => some (w, c2)
  | some p =>
    match w.proxyTarget p with
    | none => some (w, c2)
    | some _ =>
      if w.proxyConnected p c.m_slot_id then
        match w.proxyDisconnect? p c.m_slot_id with
        | some w2 => some (w2, c2)
        | none => none
      else some (w, c2)

/-- Total rendering of connection::close (justified by the theorem that
    `close?` never hits the assertion branch). -/
def connection.closeT {σ : Type} (c : connection) (w : World σ) :
    World σ × connection :=
  match c.close? w with
  | some r => r
  | none => (w, { c with m_signal_proxy := none })

/-- signal::connect(slot) on the signal object itself: assigns the next
    identifier, emplaces the slot, returns a connection holding a weak
    reference to the signal's proxy. -/
def signal.connect {σ : Type} (s : signal σ) (f : σ) : signal σ × connection :=
  let slot_id := s.m_next_slot_id
  ({ s with
      m_next_slot_id := (slot_id + 1) % U64MOD,
      m_slots := mapEmplace slot_id f s.m_slots },
   { m_slot_id := slot_id, m_signal_proxy := s.m_signal_proxy })

/-- signal::connect lifted to the heap (the signal object sid must exist). -/
def World.connect? {σ : Type} (w : World σ) (sid : Nat) (f : σ) :
    Option (World σ × connection) :=
  match w.signalAt sid with
  | none => none
  | some s =>
    let sc := s.connect f
    some (w.setSignal sid sc.1, sc.2)

/-- signal::clear() lifted to the heap. -/
def World.clearAt {σ : Type} (w : World σ) (sid : Nat) : World σ :=
  match w.signalAt sid with
  | none => w
  | some s => w.setSignal sid s.clear

/-- signal::operator=(signal&&): guarded self-move; transfers counter, slot
    map and the proxy shared_ptr (destroying the destination's old proxy,
    whose strong count drops to zero), then rebind_signal_proxy().  None
    models the undefined rebind through a null shared_ptr (source signal
    already moved from). -/
def World.moveAssign? {σ : Type} (w : World σ) (dst src : Nat) :
    Option (World σ) :=
  if dst = src then some w
  else
    match w.signalAt dst, w.signalAt src with
    | some d, some s =>
      match s.m_signal_proxy with
      | none => none
      | some p =>
        let proxies1 :=
          match d.m_signal_proxy with
          | some pOld => mapErase pOld w.proxies
          | none => w.proxies
        let d2 : signal σ :=
          { m_next_slot_id := s.m_next_slot_id, m_slots := s.m_slots,
            m_signal_proxy := some p }
        let s2 : signal σ :=
          { m_next_slot_id := s.m_next_slot_id, m_slots := [],
            m_signal_proxy := none }
        some { signals := setA dst d2 (setA src s2 w.signals),
               proxies := setA p dst proxies1 }
    | _, _ => none

/-- signal::signal(signal&&): a new signal object (fresh id nid) takes the
    counter, slot map and proxy, then rebind_signal_proxy(). -/
def World.moveConstruct? {σ : Type} (w : World σ) (nid src : Nat) :
    Option (World σ) :=
  match w.signalAt src with
  | none => none
  | some s =>
    match s.m_signal_proxy with
    | none => none
    | some p =>
      let d2 : signal σ :=
        { m_next_slot_id := s.m_next_slot_id, m_slots := s.m_slots,
          m_signal_proxy := some p }
      let s2 : signal σ :=
        { m_next_slot_id := s.m_next_slot_id, m_slots := [],
          m_signal_proxy := none }
      some { signals := setA nid d2 (setA src s2 w.signals),
             proxies := setA p nid w.proxies }

/-- signal::swap: guarded self-swap; exchanges counters, slot maps and proxy
    pointers, then rebinds this's proxy and other's proxy (in that order). -/
def World.swapAt? {σ : Type} (w : World σ) (a b : Nat) : Option (World σ) :=
  if a = b then some w
  else
    match w.signalAt a, w.signalAt b with
    | some sa, some sb =>
      match sa.m_signal_proxy, sb.m_signal_proxy with
      | some pa, some pb =>
        let sa2 : signal σ :=
          { m_next_slot_id := sb.m_next_slot_id, m_slots := sb.m_slots,
            m_signal_proxy := some pb }
        let sb2 : signal σ :=
          { m_next_slot_id := sa.m_next_slot_id, m_slots := sa.m_slots,
            m_signal_proxy := some pa }
        some { signals := setA a sa2 (setA b sb2 w.signals),
               proxies := setA pa b (setA pb a w.proxies) }
      | _, _ => none
    | _, _ => none

/-- A `proto::scoped_connection` value wrapping its m_conn. -/
structure scoped_connection where
  m_conn : connection
deriving DecidableEq

/-- scoped_connection::valid(). -/
def scoped_connection.valid {σ : Type} (sc : scoped_connection) (w : World σ) :
    Bool :=
  sc.m_conn.valid w

/-- scoped_connection::close(): m_conn.close(). -/
def scoped_connection.close {σ : Type} (sc : scoped_connection) (w : World σ) :
    World σ × scoped_connection :=
  let r := sc.m_conn.closeT w
  (r.1, { m_conn := r.2 })

/-- scoped_connection::~scoped_connection(): { close(); }. -/
def scoped_connection.dtor {σ : Type} (sc : scoped_connection) (w : World σ) :
    World σ :=
  (sc.close w).1

/-- A `proto::receiver` base subobject: m_conns. -/
structure receiver where
  m_conns : List connection
deriving DecidableEq

/-- receiver::append(connection&&). -/
def receiver.append (r : receiver) (c : connection) : receiver :=
  { m_conns := r.m_conns ++ [c] }

/-- receiver::num_connections(): count_if valid. -/
def receiver.num_connections {σ : Type} (r : receiver) (w : World σ) : Nat :=
  r.m_conns.countP (fun c => c.valid w)

/-- The loop body of receiver::~receiver(): for each owned connection, in
    order, `if (conn) conn.close();`. -/
def receiverDtorLoop {σ : Type} (w : World σ) : List connection → World σ
  | [] => w
  | c :: rest =>
    receiverDtorLoop (if c.valid w then (c.closeT w).1 else w) rest

/-- receiver::~receiver(). -/
def receiver.dtor {σ : Type} (r : receiver) (w : World σ) : World σ :=
  receiverDtorLoop w r.m_conns

/-- Member-function overload signal::connect(T*, Ret(T::\x2a)(Args...)) of the
    signal_proxy header revision: registers the closure through the
    free-function connect and appends the resulting connection to the
    receiver; its return type is void. -/
def World.connectMember? {σ : Type} (w : World σ) (sid : Nat) (f : σ)
    (r : receiver) : Option (World σ × receiver) :=
  match w.connect? sid f with
  | none => none
  | some (w2, conn) => some (w2, r.append conn)

/-- signal::emit: invokes each slot of m_slots in map iteration order; the
    result is the sequence of return values in invocation order. -/
def signal.emit {α β : Type} (s : signal (α → β)) (a : α) : List β :=
  s.m_slots.foldl (fun acc kv => acc ++ [kv.2 a]) []

/-- signal::operator(): { emit(args...); }. -/
def signal.callOp {α β : Type} (s : signal (α → β)) (a : α) : List β :=
  s.emit a

/-- signal::collect(dest, args...): for each slot of m_slots in map
    iteration order, `*dest++ = slot(args...)`. -/
def signal.collect {α β : Type} (s : signal (α → β)) (dest : List β) (a : α) :
    List β :=
  s.m_slots.foldl (fun d kv => d ++ [kv.2 a]) dest

/-
Older header revision (src/include/proto/proto.hpp): one reference-counted
detail::socket object per registration, held strongly only by the slot
entry in m_slots; connections hold a weak_ptr to the socket.  Only the
parts the member-connect claim needs are embedded: signal::connect (free
function overload) and the member-function overload that appends to the
receiver and returns the connection.
-/

/-- The older revision's signal object: m_curr_slot_id and m_slots, where a
    slot entry pairs the callback with the id of its shared socket. -/
structure signalH (σ : Type) where
  m_curr_slot_id : Nat
  m_slots : List (Nat × (σ × Nat))
deriving DecidableEq

/-- Heap for the older revision (single signal suffices for the claim):
    the signal object plus a fresh-id source for make_shared. -/
structure WorldH (σ : Type) where
  sig : signalH σ
  next_obj : Nat
deriving DecidableEq

/-- The older revision's connection: only the weak_ptr to its socket. -/
structure connectionH where
  m_socket : Option Nat
deriving DecidableEq

/-- The older revision's receiver subobject. -/
structure receiverH where
  m_connections : List connectionH
deriving DecidableEq

/-- receiver::append(const connection&) of the older revision. -/
def receiverH.append (r : receiverH) (c : connectionH) : receiverH :=
  { m_connections := r.m_connections ++ [c] }

/-- The slot id recorded in a live socket object: a socket is alive exactly
    while some slot entry holds its (sole) strong reference. -/
def WorldH.socketSlotId {σ : Type} (w : WorldH σ) (sk : Nat) : Option Nat :=
  match w.sig.m_slots.find? (fun e => e.2.2 == sk) with
  | some e => some e.1
  | none => none

/-- Older revision signal::connect(callback): slot_id = m_curr_slot_id++;
    make_shared a socket bound to (slot_id, this); emplace the slot holding
    the callback and the socket; return connection(socket). -/
def WorldH.connectFree {σ : Type} (w : WorldH σ) (f : σ) :
    WorldH σ × connectionH :=
  let slot_id := w.sig.m_curr_slot_id
  let sk := w.next_obj
  ({ sig := { m_curr_slot_id := (slot_id + 1) % U64MOD,
              m_slots := mapEmplace slot_id (f, sk) w.sig.m_slots },
     next_obj := sk + 1 },
   { m_socket := some sk })

/-- Older revision member overload signal::connect(T*, Ret(T::\x2a)(Args...)):
    conn = connect(closure); receiver->append(conn); return conn. -/
def WorldH.connectMember {σ : Type} (w : WorldH σ) (r : receiverH) (f : σ) :
    connectionH × WorldH σ × receiverH :=
  let wc := w.connectFree f
  (wc.2, wc.1, r.append wc.2)


lemma lookupA_setA_self {σ : Type} (k : Nat) (v : σ) (l : List (Nat × σ)) :
    lookupA k (setA k v l) = some v := by
  induction l with
  | nil => simp [setA, lookupA]
  | cons kv rest ih =>
    by_cases h : kv.1 = k
    · simp [setA, lookupA, h]
    · simp [setA, lookupA, h, ih]

lemma lookupA_setA_ne {σ : Type} (k k2 : Nat) (v : σ) (l : List (Nat × σ))
    (h : k2 ≠ k) : lookupA k2 (setA k v l) = lookupA k2 l := by
  have hne : ¬ k = k2 := fun hh => h hh.symm
  induction l with
  | nil => simp [setA, lookupA, hne]
  | cons kv rest ih =>
    by_cases hk : kv.1 = k
    · have hne2 : ¬ kv.1 = k2 := by
        rw [hk]
        exact hne
      simp [setA, lookupA, hk, hne, hne2]
    · simp only [setA, hk, if_neg hk]
      by_cases hk2 : kv.1 = k2
      · simp [lookupA, hk2]
      · simp [lookupA, hk2, ih]

lemma lookupA_mapErase_ne {σ : Type} (k k2 : Nat) (l : List (Nat × σ))
    (h : k2 ≠ k) : lookupA k2 (mapErase k l) = lookupA k2 l := by
  have hne : ¬ k = k2 := fun hh => h hh.symm
  induction l with
  | nil => simp [mapErase]
  | cons kv rest ih =>
    by_cases hk : kv.1 = k
    · have hne2 : ¬ kv.1 = k2 := by
        rw [hk]
        exact hne
      simp [mapErase, lookupA, hk, hne, hne2]
    · by_cases hk2 : kv.1 = k2
      · simp [mapErase, lookupA, hk, hk2, h]
      · simp [mapErase, lookupA, hk, hk2, h, ih]

lemma lookupA_none_of_not_mem_keys {σ : Type} (k : Nat) (l : List (Nat × σ))
    (h : k ∉ keysOf l) : lookupA k l = none := by
  induction l with
  | nil => simp [lookupA]
  | cons kv rest ih =>
    simp only [keysOf, List.map_cons, List.mem_cons, not_or] at h
    have hne : ¬ kv.1 = k := fun h2 => h.1 h2.symm
    have hrest : k ∉ keysOf rest := h.2
    simp [lookupA, hne, ih hrest]

lemma keysOf_mapErase_subset {σ : Type} (k : Nat) (l : List (Nat × σ)) :
    keysOf (mapErase k l) ⊆ keysOf l := by
  induction l with
  | nil => simp [mapErase]
  | cons kv rest ih =>
    by_cases hk : kv.1 = k
    · simp only [mapErase, hk, if_pos rfl]
      intro x hx
      exact List.mem_cons_of_mem _ hx
    · simp only [mapErase, hk, if_neg hk, keysOf, List.map_cons]
      intro x hx
      rcases List.mem_cons.mp hx with hx | hx
      · exact List.mem_cons.mpr (Or.inl hx)
      · exact List.mem_cons_of_mem _ (ih hx)

lemma nodup_mapErase {σ : Type} (k : Nat) (l : List (Nat × σ))
    (h : NodupKeys l) : NodupKeys (mapErase k l) := by
  induction l with
  | nil => simpa [mapErase] using h
  | cons kv rest ih =>
    simp only [NodupKeys, keysOf, List.map_cons, List.nodup_cons] at h
    by_cases hk : kv.1 = k
    · simp only [mapErase, hk, if_pos rfl]
      exact h.2
    · have hrest : NodupKeys (mapErase k rest) := ih h.2
      have hstep : mapErase k (kv :: rest) = kv :: mapErase k rest := by
        simp [mapErase, hk]
      rw [hstep]
      simp only [NodupKeys, keysOf, List.map_cons, List.nodup_cons]
      exact ⟨fun hmem => h.1 (keysOf_mapErase_subset k rest hmem), hrest⟩

lemma lookupA_mapErase_self {σ : Type} (k : Nat) (l : List (Nat × σ))
    (h : NodupKeys l) : lookupA k (mapErase k l) = none := by
  induction l with
  | nil => simp [mapErase, lookupA]
  | cons kv rest ih =>
    simp only [NodupKeys, keysOf, List.map_cons, List.nodup_cons] at h
    by_cases hk : kv.1 = k
    · simp only [mapErase, hk, if_pos rfl]
      exact lookupA_none_of_not_mem_keys k rest (hk ▸ h.1)
    · simp [mapErase, lookupA, hk, ih h.2]

lemma length_mapErase {σ : Type} (k : Nat) (l : List (Nat × σ))
    (h : mapContains k l = true) : (mapErase k l).length + 1 = l.length := by
  induction l with
  | nil => simp [mapContains, lookupA] at h
  | cons kv rest ih =>
    by_cases hk : kv.1 = k
    · simp [mapErase, hk]
    · simp only [mapContains, lookupA, if_neg hk] at h
      simp [mapErase, hk, ih h]

lemma World.signalAt_setSignal_self {σ : Type} (w : World σ) (sid : Nat)
    (s : signal σ) : (w.setSignal sid s).signalAt sid = some s := by
  simp [World.setSignal, World.signalAt, lookupA_setA_self]

lemma World.signalAt_setSignal_ne {σ : Type} (w : World σ) (sid sid2 : Nat)
    (s : signal σ) (h : sid2 ≠ sid) :
    (w.setSignal sid s).signalAt sid2 = w.signalAt sid2 := by
  simp [World.setSignal, World.signalAt, lookupA_setA_ne _ _ _ _ h]

lemma World.proxyTarget_setSignal {σ : Type} (w : World σ) (sid : Nat)
    (s : signal σ) (p : Nat) :
    (w.setSignal sid s).proxyTarget p = w.proxyTarget p := rfl

lemma World.proxies_setSignal {σ : Type} (w : World σ) (sid : Nat)
    (s : signal σ) : (w.setSignal sid s).proxies = w.proxies := rfl

lemma connection.valid_elim {σ : Type} (c : connection) (w : World σ)
    (hv : c.valid w = true) :
    ∃ p sid s, c.m_signal_proxy = some p ∧ w.proxyTarget p = some sid ∧
      w.signalAt sid = some s ∧ s.connected c.m_slot_id = true := by
  cases hp : c.m_signal_proxy with
  | none => simp only [connection.valid, hp] at hv; cases hv
  | some p =>
    simp only [connection.valid, World.proxyConnected, hp] at hv
    cases ht : w.proxyTarget p with
    | none => simp only [ht] at hv; cases hv
    | some sid =>
      simp only [ht] at hv
      cases hs : w.signalAt sid with
      | none => simp only [hs] at hv; cases hv
      | some s =>
        simp only [hs] at hv
        exact ⟨p, sid, s, rfl, ht, hs, hv⟩

lemma connection.valid_eq_connected {σ : Type} (c : connection) (w : World σ)
    (p sid : Nat) (s : signal σ) (hp : c.m_signal_proxy = some p)
    (ht : w.proxyTarget p = some sid) (hs : w.signalAt sid = some s) :
    c.valid w = s.connected c.m_slot_id := by
  simp only [connection.valid, World.proxyConnected, hp, ht, hs]

lemma World.proxyDisconnect_isSome {σ : Type} (w : World σ) (p k : Nat)
    (h : w.proxyConnected p k = true) : (w.proxyDisconnect? p k).isSome := by
  unfold World.proxyDisconnect?
  rw [if_pos h]
  unfold World.proxyConnected at h
  cases ht : w.proxyTarget p with
  | none => simp only [ht] at h; cases h
  | some sid =>
    simp only [ht] at h ⊢
    cases hs : w.signalAt sid with
    | none => simp only [hs] at h; cases h
    | some s =>
      simp only [hs] at h ⊢
      unfold signal.connected mapContains at h
      unfold signal.disconnect?
      cases hl : lookupA k s.m_slots with
      | none => simp only [hl] at h; cases h
      | some v => simp [hl]

lemma connection.close_total {σ : Type} (c : connection) (w : World σ) :
    (c.close? w).isSome := by
  unfold connection.close?
  cases hp : c.m_signal_proxy with
  | none => simp
  | some p =>
    simp only
    cases ht : w.proxyTarget p with
    | none => simp
    | some sid =>
      simp only
      by_cases hpc : w.proxyConnected p c.m_slot_id
      · rw [if_pos hpc]
        have hd2 := World.proxyDisconnect_isSome w p c.m_slot_id hpc
        cases hd : w.proxyDisconnect? p c.m_slot_id with
        | none => rw [hd] at hd2; cases hd2
        | some w2 => simp [hd]
      · rw [if_neg hpc]
        simp

lemma connection.closeT_of_invalid {σ : Type} (c : connection) (w : World σ)
    (h : c.valid w = false) :
    c.closeT w = (w, { m_slot_id := c.m_slot_id, m_signal_proxy := none }) := by
  cases hp : c.m_signal_proxy with
  | none => simp [connection.closeT, connection.close?, hp]
  | some p =>
    simp only [connection.valid, hp] at h
    cases ht : w.proxyTarget p with
    | none => simp [connection.closeT, connection.close?, hp, ht]
    | some sid =>
      simp [connection.closeT, connection.close?, hp, ht, h]

lemma connection.closeT_of_valid {σ : Type} (c : connection) (w : World σ)
    (p sid : Nat) (s : signal σ) (hp : c.m_signal_proxy = some p)
    (ht : w.proxyTarget p = some sid) (hs : w.signalAt sid = some s)
    (hv : c.valid w = true) :
    c.closeT w =
      (w.setSignal sid { s with m_slots := mapErase c.m_slot_id s.m_slots },
       { m_slot_id := c.m_slot_id, m_signal_proxy := none }) := by
  have hc : s.connected c.m_slot_id = true := by
    rw [← connection.valid_eq_connected c w p sid s hp ht hs]
    exact hv
  have hpc : w.proxyConnected p c.m_slot_id = true := by
    simp only [World.proxyConnected, ht, hs]
    exact hc
  have hl2 : (lookupA c.m_slot_id s.m_slots).isSome = true := hc
  cases hl : lookupA c.m_slot_id s.m_slots with
  | none => rw [hl] at hl2; cases hl2
  | some v =>
    simp only [connection.closeT, connection.close?, World.proxyDisconnect?,
      signal.disconnect?, hp, ht, hs, hl, if_pos hpc]

lemma connection.closeT_no_proxy {σ : Type} (k : Nat) (w : World σ) :
    (connection.mk k none).closeT w = (w, connection.mk k none) := rfl

/-- C1: closing a valid connection removes exactly the slot it references
    from the signal its routing proxy currently resolves to: that signal's
    map loses exactly the one entry and size() drops by exactly 1, all other
    signal objects and all proxy objects are untouched; afterwards the
    connection, and every copy or alias resolving to the same registration
    (same slot id through the same proxy), reports invalid; and closing
    again (the closed handle or any such alias) performs no state change.
    `close` never throws: it is a total function whose assertion branch is
    unreachable (see the C10 theorem). -/
theorem C1_close_contract {σ : Type} (w : World σ) (c : connection)
    (p sid : Nat) (s : signal σ)
    (hp : c.m_signal_proxy = some p) (ht : w.proxyTarget p = some sid)
    (hs : w.signalAt sid = some s) (hnd : NodupKeys s.m_slots)
    (hv : c.valid w = true) :
    (c.closeT w).1.sizeAt sid + 1 = w.sizeAt sid ∧
    (c.closeT w).1.signalAt sid =
      some { s with m_slots := mapErase c.m_slot_id s.m_slots } ∧
    (∀ sid2, sid2 ≠ sid → (c.closeT w).1.signalAt sid2 = w.signalAt sid2) ∧
    (c.closeT w).1.proxies = w.proxies ∧
    (c.closeT w).2.valid (c.closeT w).1 = false ∧
    (∀ d : connection, d.m_signal_proxy = some p → d.m_slot_id = c.m_slot_id →
       d.valid (c.closeT w).1 = false) ∧
    (∀ d : connection, d.m_signal_proxy = some p → d.m_slot_id = c.m_slot_id →
       (d.closeT (c.closeT w).1).1 = (c.closeT w).1) ∧
    ((c.closeT w).2.closeT (c.closeT w).1).1 = (c.closeT w).1 := by
  have hc : s.connected c.m_slot_id = true := by
    rw [← connection.valid_eq_connected c w p sid s hp ht hs]
    exact hv
  have hkey := connection.closeT_of_valid c w p sid s hp ht hs hv
  rw [hkey]
  have halias : ∀ d : connection, d.m_signal_proxy = some p →
      d.m_slot_id = c.m_slot_id →
      d.valid (w.setSignal sid
        { s with m_slots := mapErase c.m_slot_id s.m_slots }) = false := by
    intro d hdp hdid
    simp [connection.valid, World.proxyConnected, hdp, hdid,
      World.proxyTarget_setSignal, ht, World.signalAt_setSignal_self,
      signal.connected, mapContains, lookupA_mapErase_self _ _ hnd]
  refine ⟨?_, ?_, ?_, ?_, ?_, ?_, ?_, ?_⟩
  · simp only [World.sizeAt, World.signalAt_setSignal_self, hs, signal.size]
    exact length_mapErase _ _ hc
  · exact World.signalAt_setSignal_self w sid _
  · intro sid2 hne
    exact World.signalAt_setSignal_ne w sid sid2 _ hne
  · rfl
  · simp [connection.valid]
  · exact halias
  · intro d hdp hdid
    rw [connection.closeT_of_invalid d _ (halias d hdp hdid)]
  · rw [connection.closeT_no_proxy]

/-- Witness for C1 at a concrete world: one signal (object id 5, proxy
    object id 3) holding slot 0. -/
theorem C1_close_contract_witness :
    ((connection.mk 0 (some 3)).valid
        (World.mk [(5, signal.mk 1 [(0, (7 : Nat))] (some 3))] [(3, 5)])
      = true) ∧
    ((connection.mk 0 (some 3)).closeT
        (World.mk [(5, signal.mk 1 [(0, (7 : Nat))] (some 3))] [(3, 5)])).1.sizeAt 5
        + 1 =
      (World.mk [(5, signal.mk 1 [(0, (7 : Nat))] (some 3))] [(3, 5)]).sizeAt 5 :=
  ⟨by decide,
   (C1_close_contract
      (World.mk [(5, signal.mk 1 [(0, (7 : Nat))] (some 3))] [(3, 5)])
      (connection.mk 0 (some 3)) 3 5 (signal.mk 1 [(0, (7 : Nat))] (some 3))
      rfl (by decide) (by decide) (by unfold NodupKeys; decide) (by decide)).1⟩

/-- C10: connection::close never trips the assertions guarding the
    disconnect chain: in every state (hence in every state reachable
    through the public interface), whenever close reaches
    signal_proxy::disconnect and signal::disconnect, the identifier is
    still present, so the Option-modelled assertion branch is unreachable
    and close returns normally. -/
theorem C10_close_never_asserts {σ : Type} (w : World σ) (c : connection) :
    (c.close? w).isSome = true ∧ c.close? w = some (c.closeT w) := by
  have h := connection.close_total c w
  refine ⟨h, ?_⟩
  unfold connection.closeT
  cases hx : c.close? w with
  | none => rw [hx] at h; cases h
  | some r => rfl

/-- C2 counterexample: the claim quantifies over every signal in any state
    and every connection the signal returned before its clear().  Here a
    connection returned by signal object 0 stays VALID after signal 0 is
    cleared, because an intervening swap re-pointed its routing proxy to
    signal object 1 (which now owns the slot); signal 0 is alive and
    cleared (size 0), yet the connection it returned reports valid. -/
theorem C2_counterexample :
    World.connect?
        (World.mk [(0, signal.mk 0 ([] : List (Nat × Nat)) (some 10)), (1, signal.mk 0 [] (some 11))]
          [(10, 0), (11, 1)]) 0 (7 : Nat)
      = some
        (World.mk
          [(0, signal.mk 1 [(0, 7)] (some 10)), (1, signal.mk 0 [] (some 11))]
          [(10, 0), (11, 1)],
         connection.mk 0 (some 10)) ∧
    World.swapAt?
        (World.mk
          [(0, signal.mk 1 [(0, 7)] (some 10)), (1, signal.mk 0 [] (some 11))]
          [(10, 0), (11, 1)]) 0 1
      = some
        (World.mk
          [(0, signal.mk 0 [] (some 11)), (1, signal.mk 1 [(0, 7)] (some 10))]
          [(10, 1), (11, 0)]) ∧
    (World.clearAt
        (World.mk
          [(0, signal.mk 0 [] (some 11)), (1, signal.mk 1 [(0, 7)] (some 10))]
          [(10, 1), (11, 0)]) 0).sizeAt 0 = 0 ∧
    (connection.mk 0 (some 10)).valid
        (World.clearAt
          (World.mk
            [(0, signal.mk 0 [] (some 11)), (1, signal.mk 1 [(0, 7)] (some 10))]
            [(10, 1), (11, 0)]) 0)
      = true := by
  decide

/-- C2 amended: after clear() on a live signal, its slot map is empty
    (size() 0, empty() true) and the identifier counter is reset to 0; and
    every connection whose routing proxy resolves, at the time of the clear,
    to THAT signal object reports invalid immediately afterwards.  (A
    connection the signal returned before an intervening swap/move no
    longer resolves to it and may stay valid - see the counterexample.) -/
theorem C2_clear_contract {σ : Type} (w : World σ) (sid : Nat) (s : signal σ)
    (hs : w.signalAt sid = some s) :
    (w.clearAt sid).signalAt sid =
      some (signal.mk 0 [] s.m_signal_proxy) ∧
    (w.clearAt sid).sizeAt sid = 0 ∧
    (∀ s2, (w.clearAt sid).signalAt sid = some s2 →
       s2.empty = true ∧ s2.m_next_slot_id = 0) ∧
    (w.clearAt sid).proxies = w.proxies ∧
    (∀ (c : connection) (p : Nat), c.m_signal_proxy = some p →
       w.proxyTarget p = some sid → c.valid (w.clearAt sid) = false) ∧
    (∀ sid2, sid2 ≠ sid → (w.clearAt sid).signalAt sid2 = w.signalAt sid2) := by
  have hcl : w.clearAt sid = w.setSignal sid (signal.mk 0 [] s.m_signal_proxy) := by
    unfold World.clearAt
    rw [hs]
    rfl
  rw [hcl]
  refine ⟨World.signalAt_setSignal_self w sid _, ?_, ?_, rfl, ?_, ?_⟩
  · simp [World.sizeAt, World.signalAt_setSignal_self, signal.size]
  · intro s2 hs2
    rw [World.signalAt_setSignal_self] at hs2
    cases hs2
    exact ⟨rfl, rfl⟩
  · intro c p hp ht
    simp [connection.valid, World.proxyConnected, hp,
      World.proxyTarget_setSignal, ht, World.signalAt_setSignal_self,
      signal.connected, mapContains, lookupA]
  · intro sid2 hne
    exact World.signalAt_setSignal_ne w sid sid2 _ hne

/-- Witness for the amended C2 at a concrete world: a signal with two
    slots and an outstanding connection resolving to it. -/
theorem C2_clear_contract_witness :
    (World.mk [(4, signal.mk 2 [(0, (5 : Nat)), (1, 6)] (some 9))] [(9, 4)]).signalAt 4
      = some (signal.mk 2 [(0, (5 : Nat)), (1, 6)] (some 9)) ∧
    (World.clearAt
        (World.mk [(4, signal.mk 2 [(0, (5 : Nat)), (1, 6)] (some 9))] [(9, 4)]) 4).sizeAt 4
      = 0 :=
  ⟨by decide,
   (C2_clear_contract
      (World.mk [(4, signal.mk 2 [(0, (5 : Nat)), (1, 6)] (some 9))] [(9, 4)])
      4 (signal.mk 2 [(0, (5 : Nat)), (1, 6)] (some 9)) (by decide)).2.1⟩

lemma connection.closeT_snd {σ : Type} (c : connection) (w : World σ) :
    (c.closeT w).2 = connection.mk c.m_slot_id none := by
  by_cases hv : c.valid w
  · obtain ⟨p, sid, s, hp, ht, hs, _⟩ := connection.valid_elim c w hv
    rw [connection.closeT_of_valid c w p sid s hp ht hs hv]
  · rw [connection.closeT_of_invalid c w (by simpa using hv)]

/-- C5: a scoped_connection's registration is released exactly once, at the
    first of explicit close() or destruction: the destructor is literally
    close(); a second close after a close changes no state (close is
    idempotent on the world), so destructor-after-close equals close alone.
    The concrete conjunct replays the spec scenario: a slot registered into
    a scoped_connection raises size() to 1 inside the scope and destruction
    at scope exit brings it back to 0 with no explicit close call. -/
theorem C5_scoped_raii {σ : Type} :
    (∀ (w : World σ) (sc : scoped_connection), sc.dtor w = (sc.close w).1) ∧
    (∀ (w : World σ) (sc : scoped_connection),
       ((sc.close w).2.close (sc.close w).1).1 = (sc.close w).1) ∧
    (∀ (w : World σ) (sc : scoped_connection),
       (sc.close w).2.dtor (sc.close w).1 = (sc.close w).1) ∧
    (World.connect? (World.mk [(0, signal.mk 0 ([] : List (Nat × Nat)) (some 10))] [(10, 0)]) 0 (5 : Nat)
       = some (World.mk [(0, signal.mk 1 [(0, 5)] (some 10))] [(10, 0)],
               connection.mk 0 (some 10)) ∧
     (World.mk [(0, signal.mk 1 [(0, (5 : Nat))] (some 10))] [(10, 0)]).sizeAt 0 = 1 ∧
     ((scoped_connection.mk (connection.mk 0 (some 10))).dtor
        (World.mk [(0, signal.mk 1 [(0, (5 : Nat))] (some 10))] [(10, 0)])).sizeAt 0
       = 0) := by
  have hsnd : ∀ (w : World σ) (sc : scoped_connection),
      (sc.close w).2 = scoped_connection.mk
        (connection.mk sc.m_conn.m_slot_id none) := by
    intro w sc
    simp only [scoped_connection.close, connection.closeT_snd]
  refine ⟨fun w sc => rfl, ?_, ?_, by decide, by decide, by decide⟩
  · intro w sc
    rw [hsnd]
    unfold scoped_connection.close
    rw [connection.closeT_no_proxy]
  · intro w sc
    rw [hsnd]
    unfold scoped_connection.dtor scoped_connection.close
    rw [connection.closeT_no_proxy]

/-- C9: identifier reuse after clear, replayed concretely: connect a slot
    (payload 7) on a live signal and retain its connection; clear() resets
    the counter and empties the map (the connection momentarily reports
    invalid); a new connect (payload 8) reuses identifier 0, after which
    the OLD connection reports valid again (it aliases the new
    registration), and closing the old connection removes the slot that
    was registered after the clear. -/
theorem C9_id_reuse_after_clear :
    World.connect? (World.mk [(0, signal.mk 0 ([] : List (Nat × Nat)) (some 10))] [(10, 0)]) 0 (7 : Nat)
      = some (World.mk [(0, signal.mk 1 [(0, 7)] (some 10))] [(10, 0)],
              connection.mk 0 (some 10)) ∧
    World.clearAt (World.mk [(0, signal.mk 1 [(0, (7 : Nat))] (some 10))] [(10, 0)]) 0
      = World.mk [(0, signal.mk 0 ([] : List (Nat × Nat)) (some 10))] [(10, 0)] ∧
    (connection.mk 0 (some 10)).valid
        (World.mk [(0, signal.mk 0 ([] : List (Nat × Nat)) (some 10))] [(10, 0)]) = false ∧
    World.connect? (World.mk [(0, signal.mk 0 ([] : List (Nat × Nat)) (some 10))] [(10, 0)]) 0 (8 : Nat)
      = some (World.mk [(0, signal.mk 1 [(0, 8)] (some 10))] [(10, 0)],
              connection.mk 0 (some 10)) ∧
    (connection.mk 0 (some 10)).valid
        (World.mk [(0, signal.mk 1 [(0, (8 : Nat))] (some 10))] [(10, 0)]) = true ∧
    ((connection.mk 0 (some 10)).closeT
        (World.mk [(0, signal.mk 1 [(0, (8 : Nat))] (some 10))] [(10, 0)])).1
      = World.mk [(0, signal.mk 1 [] (some 10))] [(10, 0)] := by
  decide

lemma mem_mapEmplace {σ : Type} (k : Nat) (v : σ) (l : List (Nat × σ)) :
    ∀ x ∈ mapEmplace k v l, x = (k, v) ∨ x ∈ l := by
  induction l with
  | nil => simp [mapEmplace]
  | cons kv rest ih =>
    intro x hx
    by_cases h1 : k < kv.1
    · simp only [mapEmplace, if_pos h1, List.mem_cons] at hx
      rcases hx with hx | hx | hx
      · exact Or.inl hx
      · exact Or.inr (List.mem_cons.mpr (Or.inl hx))
      · exact Or.inr (List.mem_cons_of_mem _ hx)
    · by_cases h2 : kv.1 = k
      · simp only [mapEmplace, if_neg h1, if_pos h2] at hx
        exact Or.inr hx
      · simp only [mapEmplace, if_neg h1, if_neg h2, List.mem_cons] at hx
        rcases hx with hx | hx
        · exact Or.inr (List.mem_cons.mpr (Or.inl hx))
        · rcases ih x hx with hx2 | hx2
          · exact Or.inl hx2
          · exact Or.inr (List.mem_cons_of_mem _ hx2)

lemma sortedKeys_mapEmplace {σ : Type} (k : Nat) (v : σ) (l : List (Nat × σ))
    (h : SortedKeys l) : SortedKeys (mapEmplace k v l) := by
  induction l with
  | nil => simp [mapEmplace, SortedKeys]
  | cons kv rest ih =>
    have hhead : ∀ x ∈ rest, kv.1 < x.1 := (List.pairwise_cons.mp h).1
    have htail : SortedKeys rest := (List.pairwise_cons.mp h).2
    by_cases h1 : k < kv.1
    · simp only [mapEmplace, if_pos h1]
      refine List.pairwise_cons.mpr ⟨?_, h⟩
      intro x hx
      rcases List.mem_cons.mp hx with hx | hx
      · rw [hx]
        exact h1
      · exact h1.trans (hhead x hx)
    · by_cases h2 : kv.1 = k
      · simpa [mapEmplace, h1, h2] using h
      · simp only [mapEmplace, if_neg h1, if_neg h2]
        refine List.pairwise_cons.mpr ⟨?_, ih htail⟩
        intro x hx
        rcases mem_mapEmplace k v rest x hx with hx2 | hx2
        · rw [hx2]
          omega
        · exact hhead x hx2

lemma mapErase_sublist {σ : Type} (k : Nat) (l : List (Nat × σ)) :
    (mapErase k l).Sublist l := by
  induction l with
  | nil => simp [mapErase]
  | cons kv rest ih =>
    by_cases h : kv.1 = k
    · simp only [mapErase, if_pos h]
      exact List.sublist_cons_self kv rest
    · simp only [mapErase, if_neg h]
      exact ih.cons₂ kv

lemma sortedKeys_mapErase {σ : Type} (k : Nat) (l : List (Nat × σ))
    (h : SortedKeys l) : SortedKeys (mapErase k l) :=
  h.sublist (mapErase_sublist k l)

lemma foldl_append_map {α β : Type} (a : α) (l : List (Nat × (α → β))) :
    ∀ d : List β,
      l.foldl (fun acc kv => acc ++ [kv.2 a]) d = d ++ l.map (fun kv => kv.2 a) := by
  induction l with
  | nil => intro d; simp
  | cons kv rest ih =>
    intro d
    simp only [List.foldl_cons, List.map_cons]
    rw [ih (d ++ [kv.2 a])]
    simp

/-- C8: emit (and its operator() alias) invokes each registered slot
    exactly once, in m_slots iteration order, passing the same argument to
    each: the invocation trace is exactly the map over the slot list, whose
    keys are strictly ascending (std::map order, an invariant preserved by
    connect's emplace and by erase).  collect appends each slot's return
    value to the output sink in the same order, so a fresh signal whose
    three registrations return 1, 2, 3 collects exactly [1, 2, 3]. -/
theorem C8_emit_collect_order {α β : Type} (s : signal (α → β)) (a : α)
    (dest : List β) (f : α → β) (hsorted : SortedKeys s.m_slots) :
    s.emit a = s.m_slots.map (fun kv => kv.2 a) ∧
    s.callOp a = s.emit a ∧
    s.collect dest a = dest ++ s.emit a ∧
    (keysOf s.m_slots).Pairwise (fun x y => x < y) ∧
    (s.connect f).1.m_slots = mapEmplace s.m_next_slot_id f s.m_slots ∧
    SortedKeys (s.connect f).1.m_slots ∧
    SortedKeys (mapErase s.m_next_slot_id s.m_slots) ∧
    ((((signal.mk 0 ([] : List (Nat × (Unit → Nat))) (some 0)).connect
          (fun _ => 1)).1.connect (fun _ => 2)).1.connect
        (fun _ => 3)).1.collect [] () = [1, 2, 3] := by
  refine ⟨?_, rfl, ?_, ?_, rfl, ?_, sortedKeys_mapErase _ _ hsorted, rfl⟩
  · unfold signal.emit
    rw [foldl_append_map a s.m_slots []]
    simp
  · unfold signal.collect signal.emit
    rw [foldl_append_map a s.m_slots dest, foldl_append_map a s.m_slots []]
    simp
  · exact hsorted.map Prod.fst (fun x y hxy => hxy)
  · exact sortedKeys_mapEmplace _ _ _ hsorted

/-- Witness for C8 at a concrete two-slot signal. -/
theorem C8_emit_collect_order_witness :
    SortedKeys [((0 : Nat), fun _ : Unit => (1 : Nat)), (1, fun _ => 2)] ∧
    (signal.mk 5 [((0 : Nat), fun _ : Unit => (1 : Nat)), (1, fun _ => 2)]
        (some 0)).collect [] ()
      = [] ++ (signal.mk 5 [((0 : Nat), fun _ : Unit => (1 : Nat)), (1, fun _ => 2)]
        (some 0)).emit () :=
  ⟨by unfold SortedKeys; decide,
   (C8_emit_collect_order
      (signal.mk 5 [((0 : Nat), fun _ : Unit => (1 : Nat)), (1, fun _ => 2)]
        (some 0)) () [] (fun _ => 3)
      (by unfold SortedKeys; decide)).2.2.1⟩

lemma find_socket_mapEmplace {σ : Type} (k sk : Nat) (f : σ)
    (l : List (Nat × (σ × Nat))) (hfresh : ∀ e ∈ l, e.2.2 ≠ sk)
    (hkey : mapContains k l = false) :
    (mapEmplace k (f, sk) l).find? (fun e => e.2.2 == sk) = some (k, (f, sk)) := by
  induction l with
  | nil => simp [mapEmplace, List.find?]
  | cons kv rest ih =>
    by_cases h1 : k < kv.1
    · simp [mapEmplace, if_pos h1, List.find?]
    · by_cases h2 : kv.1 = k
      · simp only [mapContains, lookupA, if_pos h2, Option.isSome_some] at hkey
        cases hkey
      · have hkv : (kv.2.2 == sk) = false := by
          simp only [beq_eq_false_iff_ne, ne_eq]
          exact hfresh kv (List.mem_cons_self kv rest)
        have hk2 : mapContains k rest = false := by
          simpa [mapContains, lookupA, if_neg h2] using hkey
        have hf2 : ∀ e ∈ rest, e.2.2 ≠ sk := fun e he =>
          hfresh e (List.mem_cons_of_mem _ he)
        simp only [mapEmplace, if_neg h1, if_neg h2, List.find?, hkv]
        exact ih hf2 hk2

/-- C4: the member-function overload of connect, in the header revision
    that declares it as `connection connect(T*, ...)` (the per-slot socket
    revision): it registers the closure exactly as the free-function
    overload does (same state change), appends the resulting connection to
    the receiver's internally tracked m_connections list, and returns that
    very same connection to the caller; the connection references the
    freshly created socket, which is attached to the newly assigned slot
    identifier. -/
theorem C4_connect_member_returns {σ : Type} (w : WorldH σ) (r : receiverH)
    (f : σ) (hfresh : ∀ e ∈ w.sig.m_slots, e.2.2 ≠ w.next_obj)
    (hkey : mapContains w.sig.m_curr_slot_id w.sig.m_slots = false) :
    (w.connectMember r f).1 = (w.connectFree f).2 ∧
    (w.connectMember r f).2.1 = (w.connectFree f).1 ∧
    (w.connectMember r f).2.2.m_connections
      = r.m_connections ++ [(w.connectFree f).2] ∧
    (w.connectFree f).2 = connectionH.mk (some w.next_obj) ∧
    (w.connectFree f).1.sig.m_slots
      = mapEmplace w.sig.m_curr_slot_id (f, w.next_obj) w.sig.m_slots ∧
    (w.connectFree f).1.socketSlotId w.next_obj = some w.sig.m_curr_slot_id := by
  refine ⟨rfl, rfl, rfl, rfl, rfl, ?_⟩
  unfold WorldH.socketSlotId WorldH.connectFree
  simp only
  rw [find_socket_mapEmplace _ _ _ _ hfresh hkey]

/-- Witness for C4 at a concrete world: empty signal, fresh receiver. -/
theorem C4_connect_member_returns_witness :
    ((WorldH.mk (signalH.mk 0 ([] : List (Nat × (Nat × Nat)))) 0).connectMember
        (receiverH.mk []) 7).2.2.m_connections
      = [] ++ [((WorldH.mk (signalH.mk 0 ([] : List (Nat × (Nat × Nat)))) 0).connectFree
          7).2] :=
  (C4_connect_member_returns
    (WorldH.mk (signalH.mk 0 ([] : List (Nat × (Nat × Nat)))) 0)
    (receiverH.mk []) 7 (by simp) (by decide)).2.2.1

lemma World.signalAt_mk {σ : Type} (sig : List (Nat × signal σ))
    (pr : List (Nat × Nat)) (x : Nat) :
    (World.mk sig pr).signalAt x = lookupA x sig := rfl

lemma World.proxyTarget_mk {σ : Type} (sig : List (Nat × signal σ))
    (pr : List (Nat × Nat)) (x : Nat) :
    (World.mk sig pr).proxyTarget x = lookupA x pr := rfl

/-- C6: move construction and move assignment transfer the slot map and the
    identifier counter and re-point the shared routing proxy to the
    destination signal object, so a connection whose weak reference goes
    through that proxy keeps exactly its previous validity and now operates
    against the moved-to signal; the slot count carries over, the moved-from
    signal is left empty (slots moved out, proxy shared_ptr nulled, counter
    value retained), and self-move-assignment leaves the world unchanged. -/
theorem C6_move_semantics {σ : Type} (w : World σ) (dst src nid : Nat)
    (d s : signal σ) (p : Nat) (hds : dst ≠ src)
    (hd : w.signalAt dst = some d) (hs : w.signalAt src = some s)
    (hp : s.m_signal_proxy = some p) (hpt : w.proxyTarget p = some src)
    (hn : w.signalAt nid = none) :
    (∀ a, w.moveAssign? a a = some w) ∧
    (w.moveAssign? dst src).isSome = true ∧
    (∀ wA, w.moveAssign? dst src = some wA →
       wA.signalAt dst = some (signal.mk s.m_next_slot_id s.m_slots (some p)) ∧
       wA.signalAt src = some (signal.mk s.m_next_slot_id [] none) ∧
       wA.proxyTarget p = some dst ∧
       wA.sizeAt dst = w.sizeAt src ∧
       (signal.mk s.m_next_slot_id ([] : List (Nat × σ)) none).empty = true ∧
       (∀ c : connection, c.m_signal_proxy = some p →
          c.valid wA = c.valid w)) ∧
    (w.moveConstruct? nid src).isSome = true ∧
    (∀ wC, w.moveConstruct? nid src = some wC →
       wC.signalAt nid = some (signal.mk s.m_next_slot_id s.m_slots (some p)) ∧
       wC.signalAt src = some (signal.mk s.m_next_slot_id [] none) ∧
       wC.proxyTarget p = some nid ∧
       wC.sizeAt nid = w.sizeAt src ∧
       (∀ c : connection, c.m_signal_proxy = some p →
          c.valid wC = c.valid w)) := by
  have hsrcdst : src ≠ dst := fun h => hds h.symm
  have hsrcnid : src ≠ nid := by
    intro h
    rw [h, hn] at hs
    cases hs
  have hA : w.moveAssign? dst src = some (World.mk
      (setA dst (signal.mk s.m_next_slot_id s.m_slots (some p))
        (setA src (signal.mk s.m_next_slot_id [] none) w.signals))
      (setA p dst
        (match d.m_signal_proxy with
         | some pOld => mapErase pOld w.proxies
         | none => w.proxies))) := by
    simp only [World.moveAssign?, if_neg hds, hd, hs, hp]
  have hC : w.moveConstruct? nid src = some (World.mk
      (setA nid (signal.mk s.m_next_slot_id s.m_slots (some p))
        (setA src (signal.mk s.m_next_slot_id [] none) w.signals))
      (setA p nid w.proxies)) := by
    simp only [World.moveConstruct?, hs, hp]
  refine ⟨?_, ?_, ?_, ?_, ?_⟩
  · intro a
    simp [World.moveAssign?]
  · rw [hA]
    rfl
  · intro wA hwA
    rw [hA] at hwA
    cases hwA
    refine ⟨?_, ?_, ?_, ?_, rfl, ?_⟩
    · simp only [World.signalAt_mk, lookupA_setA_self]
    · simp only [World.signalAt_mk]
      rw [lookupA_setA_ne _ _ _ _ hsrcdst, lookupA_setA_self]
    · simp only [World.proxyTarget_mk, lookupA_setA_self]
    · unfold World.sizeAt
      simp only [World.signalAt_mk, lookupA_setA_self, hs]
      simp [signal.size]
    · intro c hcp
      simp only [connection.valid, hcp, World.proxyConnected,
        World.proxyTarget_mk, World.signalAt_mk, lookupA_setA_self, hpt, hs]
      simp [signal.connected]
  · rw [hC]
    rfl
  · intro wC hwC
    rw [hC] at hwC
    cases hwC
    refine ⟨?_, ?_, ?_, ?_, ?_⟩
    · simp only [World.signalAt_mk, lookupA_setA_self]
    · simp only [World.signalAt_mk]
      rw [lookupA_setA_ne _ _ _ _ hsrcnid, lookupA_setA_self]
    · simp only [World.proxyTarget_mk, lookupA_setA_self]
    · unfold World.sizeAt
      simp only [World.signalAt_mk, lookupA_setA_self, hs]
      simp [signal.size]
    · intro c hcp
      simp only [connection.valid, hcp, World.proxyConnected,
        World.proxyTarget_mk, World.signalAt_mk, lookupA_setA_self, hpt, hs]
      simp [signal.connected]

/-- Witness for C6 at a concrete world: two live signals (ids 0 and 1, with
    proxy objects 10 and 11), moving signal 1 into signal 0, and fresh id 2
    for move construction. -/
theorem C6_move_semantics_witness :
    ((World.mk
        [(0, signal.mk 0 ([] : List (Nat × Nat)) (some 10)),
         (1, signal.mk 1 [(0, 7)] (some 11))]
        [(10, 0), (11, 1)]).moveAssign? 0 1).isSome = true :=
  (C6_move_semantics
    (World.mk
      [(0, signal.mk 0 ([] : List (Nat × Nat)) (some 10)),
       (1, signal.mk 1 [(0, 7)] (some 11))]
      [(10, 0), (11, 1)])
    0 1 2 (signal.mk 0 ([] : List (Nat × Nat)) (some 10))
    (signal.mk 1 [(0, 7)] (some 11)) 11
    (by decide) (by decide) (by decide) rfl (by decide) (by decide)).2.1

/-- C7: swap on two distinct live signals exchanges their entire state
    (slot maps, identifier counters, proxy objects) and re-points both
    proxies, so each signal's size() becomes the other's, every connection
    issued through either proxy keeps exactly its previous validity, and
    closing a (valid) connection that was issued by A removes its slot from
    B, leaving A's count untouched - and symmetrically for B's. -/
theorem C7_swap_exchanges {σ : Type} (w : World σ) (a b pa pb : Nat)
    (sa sb : signal σ) (hab : a ≠ b)
    (ha : w.signalAt a = some sa) (hb : w.signalAt b = some sb)
    (hpa : sa.m_signal_proxy = some pa) (hpb : sb.m_signal_proxy = some pb)
    (hpab : pa ≠ pb)
    (hta : w.proxyTarget pa = some a) (htb : w.proxyTarget pb = some b) :
    (w.swapAt? a b).isSome = true ∧
    (∀ wS, w.swapAt? a b = some wS →
       wS.signalAt a = some (signal.mk sb.m_next_slot_id sb.m_slots (some pb)) ∧
       wS.signalAt b = some (signal.mk sa.m_next_slot_id sa.m_slots (some pa)) ∧
       wS.proxyTarget pa = some b ∧
       wS.proxyTarget pb = some a ∧
       wS.sizeAt a = w.sizeAt b ∧
       wS.sizeAt b = w.sizeAt a ∧
       (∀ c : connection, c.m_signal_proxy = some pa →
          c.valid wS = c.valid w) ∧
       (∀ c : connection, c.m_signal_proxy = some pb →
          c.valid wS = c.valid w) ∧
       (∀ c : connection, c.m_signal_proxy = some pa → c.valid w = true →
          (c.closeT wS).1.sizeAt b + 1 = wS.sizeAt b ∧
          (c.closeT wS).1.sizeAt a = wS.sizeAt a) ∧
       (∀ c : connection, c.m_signal_proxy = some pb → c.valid w = true →
          (c.closeT wS).1.sizeAt a + 1 = wS.sizeAt a ∧
          (c.closeT wS).1.sizeAt b = wS.sizeAt b)) := by
  have hba : b ≠ a := fun h => hab h.symm
  have hpba : pb ≠ pa := fun h => hpab h.symm
  have hS : w.swapAt? a b = some (World.mk
      (setA a (signal.mk sb.m_next_slot_id sb.m_slots (some pb))
        (setA b (signal.mk sa.m_next_slot_id sa.m_slots (some pa)) w.signals))
      (setA pa b (setA pb a w.proxies))) := by
    simp only [World.swapAt?, if_neg hab, ha, hb, hpa, hpb]
  refine ⟨by rw [hS]; rfl, ?_⟩
  intro wS hwS
  rw [hS] at hwS
  cases hwS
  set sa2 := signal.mk sb.m_next_slot_id sb.m_slots (some pb) with hsa2
  set sb2 := signal.mk sa.m_next_slot_id sa.m_slots (some pa) with hsb2
  set wsig := setA a sa2 (setA b sb2 w.signals) with hwsig
  set wpr := setA pa b (setA pb a w.proxies) with hwpr
  have hSa : (World.mk wsig wpr).signalAt a = some sa2 := by
    rw [World.signalAt_mk, hwsig, lookupA_setA_self]
  have hSb : (World.mk wsig wpr).signalAt b = some sb2 := by
    rw [World.signalAt_mk, hwsig, lookupA_setA_ne _ _ _ _ hba,
      lookupA_setA_self]
  have hPa : (World.mk wsig wpr).proxyTarget pa = some b := by
    rw [World.proxyTarget_mk, hwpr, lookupA_setA_self]
  have hPb : (World.mk wsig wpr).proxyTarget pb = some a := by
    rw [World.proxyTarget_mk, hwpr, lookupA_setA_ne _ _ _ _ hpba,
      lookupA_setA_self]
  have hvalida : ∀ c : connection, c.m_signal_proxy = some pa →
      c.valid (World.mk wsig wpr) = c.valid w := by
    intro c hcp
    rw [connection.valid_eq_connected c _ pa b sb2 hcp hPa hSb,
      connection.valid_eq_connected c w pa a sa hcp hta ha]
    rw [hsb2]
    rfl
  have hvalidb : ∀ c : connection, c.m_signal_proxy = some pb →
      c.valid (World.mk wsig wpr) = c.valid w := by
    intro c hcp
    rw [connection.valid_eq_connected c _ pb a sa2 hcp hPb hSa,
      connection.valid_eq_connected c w pb b sb hcp htb hb]
    rw [hsa2]
    rfl
  have hsizea : (World.mk wsig wpr).sizeAt a = w.sizeAt b := by
    unfold World.sizeAt
    rw [hSa, hb, hsa2]
    rfl
  have hsizeb : (World.mk wsig wpr).sizeAt b = w.sizeAt a := by
    unfold World.sizeAt
    rw [hSb, ha, hsb2]
    rfl
  refine ⟨hSa, hSb, hPa, hPb, hsizea, hsizeb, hvalida, hvalidb, ?_, ?_⟩
  · intro c hcp hcv
    have hconn : sa.connected c.m_slot_id = true := by
      rw [← connection.valid_eq_connected c w pa a sa hcp hta ha]
      exact hcv
    have hvS : c.valid (World.mk wsig wpr) = true := by
      rw [hvalida c hcp]
      exact hcv
    have hclose := connection.closeT_of_valid c (World.mk wsig wpr) pa b sb2
      hcp hPa hSb hvS
    rw [hclose]
    constructor
    · unfold World.sizeAt
      rw [World.signalAt_setSignal_self, hSb, hsb2]
      exact length_mapErase _ _ hconn
    · unfold World.sizeAt
      rw [World.signalAt_setSignal_ne _ _ _ _ hab]
  · intro c hcp hcv
    have hconn : sb.connected c.m_slot_id = true := by
      rw [← connection.valid_eq_connected c w pb b sb hcp htb hb]
      exact hcv
    have hvS : c.valid (World.mk wsig wpr) = true := by
      rw [hvalidb c hcp]
      exact hcv
    have hclose := connection.closeT_of_valid c (World.mk wsig wpr) pb a sa2
      hcp hPb hSa hvS
    rw [hclose]
    constructor
    · unfold World.sizeAt
      rw [World.signalAt_setSignal_self, hSa, hsa2]
      exact length_mapErase _ _ hconn
    · unfold World.sizeAt
      rw [World.signalAt_setSignal_ne _ _ _ _ hba]

/-- Witness for C7 at a concrete world: signals 0 and 1 (proxies 10, 11),
    one slot each. -/
theorem C7_swap_exchanges_witness :
    ((World.mk
        [(0, signal.mk 1 [(0, (7 : Nat))] (some 10)),
         (1, signal.mk 1 [(0, 8)] (some 11))]
        [(10, 0), (11, 1)]).swapAt? 0 1).isSome = true :=
  (C7_swap_exchanges
    (World.mk
      [(0, signal.mk 1 [(0, (7 : Nat))] (some 10)),
       (1, signal.mk 1 [(0, 8)] (some 11))]
      [(10, 0), (11, 1)])
    0 1 10 11 (signal.mk 1 [(0, (7 : Nat))] (some 10))
    (signal.mk 1 [(0, 8)] (some 11))
    (by decide) (by decide) (by decide) rfl rfl (by decide) (by decide)
    (by decide)).1

/-- The signal object a connection's routing proxy currently points at. -/
def connection.resolveTarget {σ : Type} (c : connection) (w : World σ) :
    Option Nat :=
  match c.m_signal_proxy with
  | none => none
  | some p => w.proxyTarget p

/-- Does connection c denote a live registration of slot k on signal sid? -/
def regMatches {σ : Type} (w : World σ) (c : connection) (sid k : Nat) : Bool :=
  c.valid w && (c.resolveTarget w == some sid) && (c.m_slot_id == k)

/-- Does any connection in the list denote a live registration of slot k on
    signal sid? -/
def memRegB {σ : Type} (w : World σ) (conns : List connection) (sid k : Nat) :
    Bool :=
  conns.any (fun c => regMatches w c sid k)

lemma any_congr {α : Type} (l : List α) (f g : α → Bool)
    (h : ∀ x ∈ l, f x = g x) : l.any f = l.any g := by
  induction l with
  | nil => simp
  | cons x rest ih =>
    simp only [List.any_cons]
    rw [h x (List.mem_cons_self x rest),
      ih (fun y hy => h y (List.mem_cons_of_mem _ hy))]

lemma mem_setA {σ : Type} (k : Nat) (v : σ) (l : List (Nat × σ)) :
    ∀ x ∈ setA k v l, x = (k, v) ∨ x ∈ l := by
  induction l with
  | nil => simp [setA]
  | cons kv rest ih =>
    intro x hx
    by_cases h : kv.1 = k
    · simp only [setA, if_pos h, List.mem_cons] at hx
      rcases hx with hx | hx
      · exact Or.inl hx
      · exact Or.inr (List.mem_cons_of_mem _ hx)
    · simp only [setA, if_neg h, List.mem_cons] at hx
      rcases hx with hx | hx
      · exact Or.inr (List.mem_cons.mpr (Or.inl hx))
      · rcases ih x hx with hx2 | hx2
        · exact Or.inl hx2
        · exact Or.inr (List.mem_cons_of_mem _ hx2)

lemma lookupA_mem {σ : Type} (k : Nat) (v : σ) (l : List (Nat × σ))
    (h : lookupA k l = some v) : (k, v) ∈ l := by
  induction l with
  | nil => simp [lookupA] at h
  | cons kv rest ih =>
    by_cases hk : kv.1 = k
    · subst hk
      simp only [lookupA, if_pos rfl] at h
      cases h
      have h2 : (kv.1, kv.2) = kv := rfl
      rw [h2]
      exact List.mem_cons_self kv rest
    · simp only [lookupA, if_neg hk] at h
      exact List.mem_cons_of_mem _ (ih h)

lemma filter_eq_self_of_no_key {σ : Type} (k : Nat) (l : List (Nat × σ))
    (h : k ∉ keysOf l) : l.filter (fun kv => !(kv.1 == k)) = l := by
  induction l with
  | nil => simp
  | cons kv rest ih =>
    simp only [keysOf, List.map_cons, List.mem_cons, not_or] at h
    have h1 : (kv.1 == k) = false := by
      simp only [beq_eq_false_iff_ne, ne_eq]
      exact fun hh => h.1 hh.symm
    have h2 := ih h.2
    simp [List.filter_cons, h1, h2]

lemma mapErase_eq_filter {σ : Type} (k : Nat) (l : List (Nat × σ))
    (h : NodupKeys l) : mapErase k l = l.filter (fun kv => !(kv.1 == k)) := by
  induction l with
  | nil => simp [mapErase]
  | cons kv rest ih =>
    simp only [NodupKeys, keysOf, List.map_cons, List.nodup_cons] at h
    by_cases hk : kv.1 = k
    · have h1 : (kv.1 == k) = true := by
        simpa using hk
      have h2 := filter_eq_self_of_no_key k rest (hk ▸ h.1)
      simp [mapErase, hk, h1, h2]
    · have h1 : (kv.1 == k) = false := by
        simpa using hk
      have h2 := ih h.2
      simp [mapErase, hk, h1, h2]

lemma lookupA_filter_byKey {σ : Type} (k : Nat) (p : Nat → Bool)
    (l : List (Nat × σ)) :
    lookupA k (l.filter (fun kv => p kv.1))
      = if p k then lookupA k l else none := by
  induction l with
  | nil => simp [lookupA]
  | cons kv rest ih =>
    by_cases hk : kv.1 = k
    · cases hpk : p k with
      | true =>
        simp only [List.filter_cons, hk, hpk, if_pos rfl, lookupA, if_true]
      | false =>
        simp only [List.filter_cons, hk, hpk, Bool.false_eq_true, if_neg,
          if_false]
        rw [ih, hpk]
        simp
    · cases hpkv : p kv.1 with
      | true =>
        simp only [List.filter_cons, hpkv, if_pos rfl, lookupA, if_neg hk]
        exact ih
      | false =>
        simp only [List.filter_cons, hpkv, Bool.false_eq_true, if_false]
        rw [ih]
        cases hpk : p k with
        | true => simp [lookupA, if_neg hk]
        | false => simp

lemma length_filter_compl {α : Type} (p : α → Bool) (l : List α) :
    (l.filter p).length + (l.filter (fun x => !(p x))).length = l.length := by
  induction l with
  | nil => simp
  | cons x rest ih =>
    cases hx : p x with
    | true => simp [List.filter_cons, hx, ← ih]; omega
    | false => simp [List.filter_cons, hx, ← ih]; omega

lemma World.sizeAt_eq_length {σ : Type} (w : World σ) (sid : Nat) :
    w.sizeAt sid = (w.slotsAt sid).length := by
  unfold World.sizeAt World.slotsAt
  cases w.signalAt sid with
  | none => rfl
  | some s => rfl

lemma connection.resolveTarget_setSignal {σ : Type} (c : connection)
    (w : World σ) (sid : Nat) (s : signal σ) :
    c.resolveTarget (w.setSignal sid s) = c.resolveTarget w := by
  cases hp : c.m_signal_proxy with
  | none => simp [connection.resolveTarget, hp]
  | some p => simp [connection.resolveTarget, hp, World.proxyTarget_setSignal]

lemma connection.closeT_proxies {σ : Type} (c : connection) (w : World σ) :
    ((c.closeT w).1).proxies = w.proxies := by
  by_cases hv : c.valid w
  · obtain ⟨p, sid, s, hp, ht, hs, _⟩ := connection.valid_elim c w hv
    rw [connection.closeT_of_valid c w p sid s hp ht hs hv]
    rfl
  · rw [connection.closeT_of_invalid c w (by simpa using hv)]

lemma WF_closeT {σ : Type} (w : World σ) (c : connection)
    (hWF : ∀ e ∈ w.signals, NodupKeys e.2.m_slots) :
    ∀ e ∈ ((c.closeT w).1).signals, NodupKeys e.2.m_slots := by
  by_cases hv : c.valid w
  · obtain ⟨p, sid, s, hp, ht, hs, _⟩ := connection.valid_elim c w hv
    rw [connection.closeT_of_valid c w p sid s hp ht hs hv]
    intro e he
    rcases mem_setA _ _ _ e he with he2 | he2
    · rw [he2]
      exact nodup_mapErase _ _ (hWF (sid, s) (lookupA_mem _ _ _ hs))
    · exact hWF e he2
  · rw [connection.closeT_of_invalid c w (by simpa using hv)]
    exact hWF

lemma regMatches_setSignal_erase {σ : Type} (w : World σ) (tgt : Nat)
    (s : signal σ) (hs : w.signalAt tgt = some s)
    (cslot : Nat) (d : connection) (sid k : Nat)
    (hside : sid = tgt → ¬ k = cslot) :
    regMatches (w.setSignal tgt { s with m_slots := mapErase cslot s.m_slots })
        d sid k
      = regMatches w d sid k := by
  cases hdp : d.m_signal_proxy with
  | none =>
    simp [regMatches, connection.valid, hdp]
  | some p2 =>
    cases ht2 : w.proxyTarget p2 with
    | none =>
      simp [regMatches, connection.valid, World.proxyConnected, hdp,
        connection.resolveTarget, World.proxyTarget_setSignal, ht2]
    | some sid2 =>
      by_cases hdk : d.m_slot_id = k
      · by_cases hss : sid2 = sid
        · subst hss
          by_cases hst : sid2 = tgt
          · subst hst
            have hkc : ¬ k = cslot := hside rfl
            have hkc2 : ¬ d.m_slot_id = cslot := by
              rw [hdk]
              exact hkc
            simp [regMatches, connection.valid, World.proxyConnected, hdp,
              connection.resolveTarget, World.proxyTarget_setSignal, ht2,
              World.signalAt_setSignal_self, hs, signal.connected,
              mapContains, lookupA_mapErase_ne _ _ _ hkc2]
          · simp [regMatches, connection.valid, World.proxyConnected, hdp,
              connection.resolveTarget, World.proxyTarget_setSignal, ht2,
              World.signalAt_setSignal_ne _ _ _ _ hst]
        · have hbe : (some sid2 == some sid) = false := by
            simpa using hss
          simp [regMatches, connection.resolveTarget, hdp,
            World.proxyTarget_setSignal, ht2, hbe]
      · have hbe : (d.m_slot_id == k) = false := by
          simpa using hdk
        simp [regMatches, hbe]

lemma valid_closeT_mono {σ : Type} (w : World σ) (c d : connection)
    (hWF : ∀ e ∈ w.signals, NodupKeys e.2.m_slots)
    (h : d.valid ((c.closeT w).1) = true) : d.valid w = true := by
  by_cases hv : c.valid w
  · obtain ⟨p, tgt, s, hp, ht, hs, hconn⟩ := connection.valid_elim c w hv
    rw [connection.closeT_of_valid c w p tgt s hp ht hs hv] at h
    obtain ⟨p2, sid2, s2, hdp, ht2, hs2, hconn2⟩ :=
      connection.valid_elim d _ h
    rw [World.proxyTarget_setSignal] at ht2
    by_cases hst : sid2 = tgt
    · subst hst
      rw [World.signalAt_setSignal_self] at hs2
      cases hs2
      have hnd : NodupKeys s.m_slots := hWF (sid2, s) (lookupA_mem _ _ _ hs)
      rw [connection.valid_eq_connected d w p2 sid2 s hdp ht2 hs]
      by_cases hdc : d.m_slot_id = c.m_slot_id
      · rw [signal.connected, mapContains, hdc,
          lookupA_mapErase_self _ _ hnd] at hconn2
        cases hconn2
      · rw [signal.connected, mapContains,
          lookupA_mapErase_ne _ _ _ hdc] at hconn2
        exact hconn2
    · rw [World.signalAt_setSignal_ne _ _ _ _ hst] at hs2
      rw [connection.valid_eq_connected d w p2 sid2 s2 hdp ht2 hs2]
      exact hconn2
  · rw [connection.closeT_of_invalid c w (by simpa using hv)] at h
    exact h

lemma receiverDtorLoop_slots {σ : Type} :
    ∀ (conns : List connection) (w : World σ),
      (∀ e ∈ w.signals, NodupKeys e.2.m_slots) →
      ∀ sid, (receiverDtorLoop w conns).slotsAt sid
        = (w.slotsAt sid).filter (fun kv => !(memRegB w conns sid kv.1)) := by
  intro conns
  induction conns with
  | nil =>
    intro w hWF sid
    simp [receiverDtorLoop, memRegB]
  | cons c rest ih =>
    intro w hWF sid
    by_cases hv : c.valid w
    case neg =>
      have hv2 : c.valid w = false := by simpa using hv
      have hstep : receiverDtorLoop w (c :: rest)
          = receiverDtorLoop w rest := by
        simp [receiverDtorLoop, hv2]
      rw [hstep, ih w hWF sid]
      apply List.filter_congr
      intro kv hkv
      simp [memRegB, List.any_cons, regMatches, hv2]
    case pos =>
      obtain ⟨p, tgt, s, hp, ht, hs, hconn⟩ := connection.valid_elim c w hv
      have hclose := connection.closeT_of_valid c w p tgt s hp ht hs hv
      have hstep : receiverDtorLoop w (c :: rest)
          = receiverDtorLoop (w.setSignal tgt
              { s with m_slots := mapErase c.m_slot_id s.m_slots }) rest := by
        simp [receiverDtorLoop, hv, hclose]
      set w1 := w.setSignal tgt
        { s with m_slots := mapErase c.m_slot_id s.m_slots } with hw1
      have hWF1 : ∀ e ∈ w1.signals, NodupKeys e.2.m_slots := by
        intro e he
        have he3 : e ∈ setA tgt
            { s with m_slots := mapErase c.m_slot_id s.m_slots } w.signals := he
        rcases mem_setA _ _ _ e he3 with he2 | he2
        · rw [he2]
          exact nodup_mapErase _ _ (hWF (tgt, s) (lookupA_mem _ _ _ hs))
        · exact hWF e he2
      have hnd : NodupKeys s.m_slots := hWF (tgt, s) (lookupA_mem _ _ _ hs)
      rw [hstep, ih w1 hWF1 sid]
      by_cases hst : sid = tgt
      case neg =>
        have hsl : w1.slotsAt sid = w.slotsAt sid := by
          rw [hw1]
          unfold World.slotsAt
          rw [World.signalAt_setSignal_ne _ _ _ _ hst]
        rw [hsl]
        apply List.filter_congr
        intro kv hkv
        have h1 : memRegB w1 rest sid kv.1 = memRegB w rest sid kv.1 := by
          unfold memRegB
          apply any_congr
          intro d hd
          rw [hw1]
          exact regMatches_setSignal_erase w tgt s hs c.m_slot_id d sid kv.1
            (fun h => absurd h hst)
        have htgtsid : (some tgt == some sid) = false := by
          simp only [beq_eq_false_iff_ne, ne_eq, Option.some.injEq]
          exact fun h => hst h.symm
        have hcreg : regMatches w c sid kv.1 = false := by
          have hres : c.resolveTarget w = some tgt := by
            simp [connection.resolveTarget, hp, ht]
          simp [regMatches, hres, htgtsid]
        rw [h1]
        simp [memRegB, List.any_cons, hcreg]
      case pos =>
        subst hst
        have hsl1 : w1.slotsAt sid = mapErase c.m_slot_id s.m_slots := by
          rw [hw1]
          unfold World.slotsAt
          rw [World.signalAt_setSignal_self]
        have hslw : w.slotsAt sid = s.m_slots := by
          unfold World.slotsAt
          rw [hs]
        have hres : c.resolveTarget w = some sid := by
          simp [connection.resolveTarget, hp, ht]
        rw [hsl1, hslw, mapErase_eq_filter _ _ hnd, List.filter_filter]
        apply List.filter_congr
        intro kv hkv
        by_cases hkc : kv.1 = c.m_slot_id
        · have hcreg : regMatches w c sid kv.1 = true := by
            simp [regMatches, hv, hres, hkc]
          have hb : (kv.1 == c.m_slot_id) = true := by
            simpa using hkc
          have hmem2 : memRegB w (c :: rest) sid kv.1 = true := by
            simp [memRegB, List.any_cons, hcreg]
          simp only [hb, hmem2, Bool.not_true, Bool.and_false]
        · have h1 : memRegB w1 rest sid kv.1 = memRegB w rest sid kv.1 := by
            unfold memRegB
            apply any_congr
            intro d hd
            rw [hw1]
            exact regMatches_setSignal_erase w sid s hs c.m_slot_id d sid kv.1
              (fun _ => hkc)
          have hcreg : regMatches w c sid kv.1 = false := by
            have hbe : (c.m_slot_id == kv.1) = false := by
              simp only [beq_eq_false_iff_ne, ne_eq]
              exact fun h => hkc h.symm
            simp [regMatches, hbe]
          have hbe2 : (kv.1 == c.m_slot_id) = false := by
            simpa using hkc
          rw [h1]
          simp [memRegB, List.any_cons, hcreg, hbe2]

lemma receiverDtorLoop_proxies {σ : Type} :
    ∀ (conns : List connection) (w : World σ),
      (receiverDtorLoop w conns).proxies = w.proxies := by
  intro conns
  induction conns with
  | nil => intro w; rfl
  | cons c rest ih =>
    intro w
    by_cases hv : c.valid w
    · have hstep : receiverDtorLoop w (c :: rest)
          = receiverDtorLoop (c.closeT w).1 rest := by
        simp [receiverDtorLoop, hv]
      rw [hstep, ih, connection.closeT_proxies]
    · have hv2 : c.valid w = false := by simpa using hv
      have hstep : receiverDtorLoop w (c :: rest)
          = receiverDtorLoop w rest := by
        simp [receiverDtorLoop, hv2]
      rw [hstep, ih]

lemma receiverDtorLoop_mono {σ : Type} :
    ∀ (conns : List connection) (w : World σ),
      (∀ e ∈ w.signals, NodupKeys e.2.m_slots) →
      ∀ d : connection,
        d.valid (receiverDtorLoop w conns) = true → d.valid w = true := by
  intro conns
  induction conns with
  | nil => intro w hWF d h; exact h
  | cons c rest ih =>
    intro w hWF d h
    by_cases hv : c.valid w
    · have hstep : receiverDtorLoop w (c :: rest)
          = receiverDtorLoop (c.closeT w).1 rest := by
        simp [receiverDtorLoop, hv]
      rw [hstep] at h
      exact valid_closeT_mono w c d hWF (ih (c.closeT w).1 (WF_closeT w c hWF) d h)
    · have hv2 : c.valid w = false := by simpa using hv
      have hstep : receiverDtorLoop w (c :: rest)
          = receiverDtorLoop w rest := by
        simp [receiverDtorLoop, hv2]
      rw [hstep] at h
      exact ih w hWF d h

/-- C3: while a receiver is alive, num_connections() counts exactly the
    still-valid connections among those it accumulated; running its
    destructor closes every still-valid owned connection, after which every
    owned connection reports invalid, and each signal's slot map has lost
    exactly those of its entries that the receiver's (valid) connections
    referenced - its size() drops by exactly that number.  In particular no
    slot the receiver registered (tracked through its connection list)
    survives its destruction. -/
theorem C3_receiver_lifecycle {σ : Type} (w : World σ) (r : receiver)
    (hWF : ∀ e ∈ w.signals, NodupKeys e.2.m_slots) :
    r.num_connections w = (r.m_conns.filter (fun c => c.valid w)).length ∧
    (∀ sid, (r.dtor w).slotsAt sid
       = (w.slotsAt sid).filter (fun kv => !(memRegB w r.m_conns sid kv.1))) ∧
    (∀ c ∈ r.m_conns, c.valid (r.dtor w) = false) ∧
    (∀ sid, (r.dtor w).sizeAt sid
       + ((w.slotsAt sid).filter
            (fun kv => memRegB w r.m_conns sid kv.1)).length
       = w.sizeAt sid) := by
  have hslots := receiverDtorLoop_slots r.m_conns w hWF
  refine ⟨?_, hslots, ?_, ?_⟩
  · unfold receiver.num_connections
    exact List.countP_eq_length_filter _ _
  · intro c hc
    cases hx : c.valid (r.dtor w) with
    | false => rfl
    | true =>
      obtain ⟨p, sid, s2, hp, htF, hsF, hconnF⟩ :=
        connection.valid_elim c _ hx
      have hproxies : (r.dtor w).proxies = w.proxies :=
        receiverDtorLoop_proxies r.m_conns w
      have htw : w.proxyTarget p = some sid := by
        unfold World.proxyTarget at htF ⊢
        rw [← hproxies]
        exact htF
      have hvw : c.valid w = true := receiverDtorLoop_mono r.m_conns w hWF c hx
      have hres : c.resolveTarget w = some sid := by
        simp [connection.resolveTarget, hp, htw]
      have hmem : memRegB w r.m_conns sid c.m_slot_id = true := by
        unfold memRegB
        rw [List.any_eq_true]
        exact ⟨c, hc, by simp [regMatches, hvw, hres]⟩
      have h2 : (r.dtor w).slotsAt sid = s2.m_slots := by
        unfold World.slotsAt
        rw [hsF]
      have hSlots : s2.m_slots = (w.slotsAt sid).filter
          (fun kv => !(memRegB w r.m_conns sid kv.1)) := by
        rw [← h2]
        exact hslots sid
      have hlk : (lookupA c.m_slot_id s2.m_slots).isSome = true := hconnF
      rw [hSlots,
        lookupA_filter_byKey c.m_slot_id
          (fun k => !(memRegB w r.m_conns sid k)) (w.slotsAt sid)] at hlk
      rw [hmem] at hlk
      simp at hlk
  · intro sid
    rw [World.sizeAt_eq_length, World.sizeAt_eq_length]
    show ((receiverDtorLoop w r.m_conns).slotsAt sid).length + _ = _
    rw [hslots sid, Nat.add_comm]
    exact length_filter_compl (fun kv => memRegB w r.m_conns sid kv.1)
      (w.slotsAt sid)

/-- Witness for C3 at a concrete world: one signal (id 0, proxy 10) holding
    slots 0 and 1, a receiver owning connections to both. -/
theorem C3_receiver_lifecycle_witness :
    (receiver.mk [connection.mk 0 (some 10), connection.mk 1 (some 10)]).num_connections
        (World.mk [(0, signal.mk 2 [(0, (7 : Nat)), (1, 8)] (some 10))] [(10, 0)])
      = ((receiver.mk [connection.mk 0 (some 10),
            connection.mk 1 (some 10)]).m_conns.filter
          (fun c => c.valid
            (World.mk [(0, signal.mk 2 [(0, (7 : Nat)), (1, 8)] (some 10))]
              [(10, 0)]))).length :=
  (C3_receiver_lifecycle
    (World.mk [(0, signal.mk 2 [(0, (7 : Nat)), (1, 8)] (some 10))] [(10, 0)])
    (receiver.mk [connection.mk 0 (some 10), connection.mk 1 (some 10)])
    (by
      intro e he
      simp only [List.mem_singleton] at he
      rw [he]
      unfold NodupKeys
      decide)).1
